import Mathlib

/-!
Shallow embedding of the devcade onboard backend core
(`src/onboard/backend/src/api/mod.rs` and `src/onboard/backend/src/nfc.rs`).

Machine integers are modelled as `Nat`; fallible operations return
`Option`/`Except`; panics (`unwrap`/`expect`/`assert!`) are modelled as an
explicit `panic` constructor in the result type.  External collaborators
(HTTP catalog, filesystem, flatpak binaries, NFC hardware, the sha256 crate)
are modelled as oracle fields of an environment record; the functions below
translate the control flow of the Rust source over those oracles.
-/

/-- The game record (`DevcadeGame` from `devcade_onboard_types::schema`):
only the fields this core reads. -/
structure DevcadeGame where
  id : String
  name : String
  hash : String
deriving DecidableEq, Repr

/-- Value of one base64 symbol in the standard alphabet
(`base64::engine::general_purpose::STANDARD`); `none` for any
non-alphabet character, including `=`. -/
def symToVal (c : Char) : Option Nat :=
  if 65 ≤ c.toNat ∧ c.toNat ≤ 90 then some (c.toNat - 65)
  else if 97 ≤ c.toNat ∧ c.toNat ≤ 122 then some (c.toNat - 97 + 26)
  else if 48 ≤ c.toNat ∧ c.toNat ≤ 57 then some (c.toNat - 48 + 52)
  else if c.toNat = 43 then some 62
  else if c.toNat = 47 then some 63
  else none

/-- Code point of the base64 symbol for a 6-bit value. -/
def valCode (v : Nat) : Nat :=
  if v < 26 then v + 65
  else if v < 52 then v - 26 + 97
  else if v < 62 then v - 52 + 48
  else if v = 62 then 43
  else 47

/-- Base64 symbol for a 6-bit value. -/
def valToSym (v : Nat) : Char := Char.ofNat (valCode v)

/-- Strict base64 decoding as performed by
`base64::engine::general_purpose::STANDARD.decode`: canonical padding is
required, trailing bits must be zero, `=` may only appear at the end of the
final quantum, and the length must be a multiple of four. -/
def base64Decode : List Char → Option (List Nat)
  | [] => some []
  | c1 :: c2 :: c3 :: c4 :: rest =>
    match symToVal c1, symToVal c2 with
    | some v1, some v2 =>
      if c3 = '=' then
        if c4 = '=' ∧ rest = [] then
          if v2 % 16 = 0 then some [v1 * 4 + v2 / 16] else none
        else none
      else
        match symToVal c3 with
        | some v3 =>
          if c4 = '=' then
            if rest = [] then
              if v3 % 4 = 0 then some [v1 * 4 + v2 / 16, v2 % 16 * 16 + v3 / 4] else none
            else none
          else
            match symToVal c4 with
            | some v4 =>
              (base64Decode rest).map
                (fun bs => (v1 * 4 + v2 / 16) :: (v2 % 16 * 16 + v3 / 4) :: (v3 % 4 * 64 + v4) :: bs)
            | none => none
        | none => none
    | _, _ => none
  | _ => none

/-- Canonical base64 encoding (the inverse of `base64Decode`, used to show
that strict decoding is injective). -/
def base64Encode : List Nat → List Char
  | [] => []
  | [b1] => [valToSym (b1 / 4), valToSym (b1 % 4 * 16), '=', '=']
  | [b1, b2] => [valToSym (b1 / 4), valToSym (b1 % 4 * 16 + b2 / 16), valToSym (b2 % 16 * 4), '=']
  | b1 :: b2 :: b3 :: rest =>
    valToSym (b1 / 4) :: valToSym (b1 % 4 * 16 + b2 / 16) ::
      valToSym (b2 % 16 * 4 + b3 / 64) :: valToSym (b3 % 64) :: base64Encode rest

/-- Lower-case hex digit (`hex::encode` alphabet). -/
def hexDigit (n : Nat) : Char :=
  match n with
  | 0 => '0' | 1 => '1' | 2 => '2' | 3 => '3' | 4 => '4' | 5 => '5' | 6 => '6' | 7 => '7'
  | 8 => '8' | 9 => '9' | 10 => 'a' | 11 => 'b' | 12 => 'c' | 13 => 'd' | 14 => 'e' | _ => 'f'

/-- `hex::encode`: two lower-case hex digits per byte. -/
def hexEncode : List Nat → List Char
  | [] => []
  | b :: bs => hexDigit (b / 16) :: hexDigit (b % 16) :: hexEncode bs

/-- `game.id.replace('-', "_")` from `flatpak_id_for_game`. -/
def replaceDashes (s : String) : String :=
  ⟨s.data.map (fun c => if c = '-' then '_' else c)⟩

/-- The constant part of the flatpak application id. -/
def flatpakIdPrefix : String := "edu.rit.csh.devcade.generated_game.id_"

/-- `flatpak_id_for_game` from `api/mod.rs`: normalizes dashes in the game
id, base64-decodes the content hash and hex-encodes the bytes.  The Rust
code unwraps the base64 decode; we return `none` where it would panic. -/
def flatpak_id_for_game (game : DevcadeGame) : Option String :=
  (base64Decode game.hash.data).map (fun bytes =>
    flatpakIdPrefix ++ replaceDashes game.id ++ ".hash_" ++ ⟨hexEncode bytes⟩)

/-- Outcome of one zip entry during extraction: the oracle booleans record
whether each filesystem interaction of `download_game`'s unzip loop
succeeds for this entry. -/
structure ZipEntry where
  name : String
  readOk : Bool
  dirCreateOk : Bool
  parentExists : Bool
  parentCreateOk : Bool
  fileCreateOk : Bool
  copyOk : Bool
deriving DecidableEq, Repr

/-- Environment of `download_game`: results of the external collaborators
(catalog request, local `game.json`, `flatpak info` probe, archive
download and zip open, metadata-directory creation, metadata write,
`build_flatpak`). -/
structure DlEnv where
  catalog : Option DevcadeGame
  localMeta : Option DevcadeGame
  installed : String → Bool
  archive : Option (List ZipEntry)
  metaDirOk : Bool
  writeMetaOk : Bool
  buildOk : Bool

/-- Observable actions of `download_game`, in program order. -/
inductive DlEv
  | resolvedCatalog
  | resolvedLocal
  | probe (fid : String)
  | fetchedArchive
  | skippedEntry (i : Nat)
  | madeDir (i : Nat)
  | warnedDir (i : Nat)
  | madeParent (i : Nat)
  | warnedParent (i : Nat)
  | warnedCreate (i : Nat)
  | copied (i : Nat)
  | warnedCopy (i : Nat)
  | wroteMeta
  | warnedMeta
  | build (fid : String)
deriving DecidableEq, Repr

inductive DlErr
  | downloadFailed
  | writeMetaFailed
  | buildFailed
deriving DecidableEq, Repr

/-- Result of a provisioning or launch call; `panicked` models a Rust
`unwrap`/`expect`/`assert!` failure aborting the call instead of
returning. -/
inductive DlResult
  | ok
  | err (e : DlErr)
  | panicked (msg : String)
deriving DecidableEq, Repr

/-- One iteration of the unzip loop in `download_game`: a `by_index`
failure skips the entry; a directory entry attempts `create_dir_all`; a
file entry creates the missing parent, creates the file (skipping the
copy when that fails) and copies the contents.  Every failure is a
logged warning; the iteration never aborts the loop. -/
def extractEntry (i : Nat) (e : ZipEntry) : List DlEv :=
  if e.readOk = false then [.skippedEntry i]
  else if e.name.endsWith "/" then
    if e.dirCreateOk then [.madeDir i] else [.warnedDir i]
  else
    (if e.parentExists then []
     else if e.parentCreateOk then [.madeParent i] else [.warnedParent i]) ++
    (if e.fileCreateOk = false then [.warnedCreate i]
     else if e.copyOk then [.copied i] else [.warnedCopy i])

/-- The whole unzip loop over the archive's entries, in index order. -/
def extractArchive (entries : List ZipEntry) : List DlEv :=
  entries.enum.flatMap (fun p => extractEntry p.1 p.2)

/-- The part of `download_game` after the metadata record has been
resolved (`ev0` records which source produced it): unwrap the flatpak id,
probe `flatpak info`, and on a miss download, extract, write `game.json`
and build. -/
def download_game_resolved (env : DlEnv) (game : DevcadeGame) (ev0 : DlEv) :
    DlResult × List DlEv :=
  match flatpak_id_for_game game with
  | none => (.panicked "invalid base64 hash", [ev0])
  | some fid =>
    if env.installed fid then (.ok, [ev0, .probe fid])
    else
      match env.archive with
      | none => (.err .downloadFailed, [ev0, .probe fid])
      | some entries =>
        let pre := ev0 :: .probe fid :: .fetchedArchive :: extractArchive entries
        if env.metaDirOk = false then (.panicked "create_dir_all failed", pre)
        else if env.writeMetaOk then
          if env.buildOk then (.ok, pre ++ [.wroteMeta, .build fid])
          else (.err .buildFailed, pre ++ [.wroteMeta, .build fid])
        else (.err .writeMetaFailed, pre ++ [.warnedMeta])

/-- `download_game` from `api/mod.rs`: resolve metadata from the catalog,
falling back to the local `game.json`; when neither yields a record the
Rust code runs `.expect("Game not downloaded and we're offline!")`, a
panic. -/
def download_game (env : DlEnv) : DlResult × List DlEv :=
  match env.catalog, env.localMeta with
  | some g, _ => download_game_resolved env g .resolvedCatalog
  | none, some g => download_game_resolved env g .resolvedLocal
  | none, none => (.panicked "Game not downloaded and we're offline!", [])

/-- The resolved-metadata hypothesis: the catalog returned `g`, or the
catalog failed and the local record is `g`. -/
def resolvesTo (env : DlEnv) (g : DevcadeGame) : Prop :=
  env.catalog = some g ∨ (env.catalog = none ∧ env.localMeta = some g)

/-- Number of external build invocations recorded in a trace. -/
def countBuild (t : List DlEv) : Nat :=
  t.countP (fun e => match e with | .build _ => true | _ => false)

/-- Environment of `launch_game`: the provisioning environment, the fresh
re-read of `game.json` after provisioning, the persistence-flush result
and the spawn result. -/
structure LaunchEnv where
  dl : DlEnv
  meta2 : Option DevcadeGame
  flushOk : Bool
  spawnOk : Bool

/-- Observable actions of `launch_game`, in program order. -/
inductive LEv
  | dl (e : DlEv)
  | flushed
  | warnedFlush
  | published (g : DevcadeGame)
  | spawned (fid : String)
  | settled
deriving DecidableEq, Repr

inductive LResult
  | ok
  | errDownload (e : DlErr)
  | errMeta
  | panicked (msg : String)
deriving DecidableEq, Repr

/-- `launch_game` from `api/mod.rs`: provision via `download_game`,
re-read `game.json`, best-effort flush the save cache (a failure only
logs a warning), publish the record to `CURRENT_GAME`, then spawn the
sandboxed process (an `expect`, hence a panic on failure) and sleep
briefly after exit. -/
def launch_game (env : LaunchEnv) : LResult × List LEv :=
  match download_game env.dl with
  | (.ok, t) =>
    match env.meta2 with
    | none => (.errMeta, t.map LEv.dl)
    | some game =>
      let t1 := t.map LEv.dl ++
        (if env.flushOk then [.flushed] else [.warnedFlush]) ++ [.published game]
      match flatpak_id_for_game game with
      | none => (.panicked "invalid base64 hash", t1)
      | some fid =>
        if env.spawnOk then (.ok, t1 ++ [.spawned fid, .settled])
        else (.panicked "Failed to launch game", t1)
  | (.err e, t) => (.errDownload e, t.map LEv.dl)
  | (.panicked m, t) => (.panicked m, t.map LEv.dl)

/-- Environment of the NFC worker: the digest used to derive handles
(`sha256::digest`, an external crate, kept abstract) and the hardware
user fetch (`fetch_user(raw).ok()` composed with the extraction of the
nested `"user"` object). -/
structure NfcEnv where
  digest : String → String
  fetchUser : String → Option String

/-- The association cache, oldest entry first: pairs of
(handle, raw association id). -/
abbrev AssocCache := List (String × String)

/-- `AllocRingBuffer::push` at capacity 8: append, evicting the oldest
entry when full. -/
def rbPush (cache : AssocCache) (x : String × String) : AssocCache :=
  if cache.length < 8 then cache ++ [x] else cache.tail ++ [x]

/-- Handle derivation at insertion time:
`sha256::digest(format!("{association_id}:{game_uuid}"))`. -/
def deriveHandle (env : NfcEnv) (raw game : String) : String :=
  env.digest (raw ++ ":" ++ game)

/-- A request taken off the worker's channel, together with the oracle
values the worker observes while servicing it: for a tags poll, the
currently present card (if any) and the current game's identifier read
from `CURRENT_GAME`. -/
inductive NfcRequest
  | tags (poll : Option String) (game : String)
  | user (handle : String)
deriving DecidableEq, Repr

inductive NfcReply
  | tags (r : Option String)
  | user (r : Option String)
deriving DecidableEq, Repr

/-- Tags-poll servicing in `NfcClient::run`: no card replies `none`; a
card already cached (looked up by raw id) replies the cached handle; a
fresh card derives a handle from the raw id and the current game and
pushes it into the ring. -/
def handleTags (env : NfcEnv) (cache : AssocCache) (poll : Option String) (game : String) :
    Option String × AssocCache :=
  match poll with
  | none => (none, cache)
  | some raw =>
    match cache.find? (fun e => e.2 == raw) with
    | some e => (some e.1, cache)
    | none =>
      let h := deriveHandle env raw game
      (some h, rbPush cache (h, raw))

/-- The `find_map` over the ring in the user-lookup arm: first entry whose
handle matches, yielding its raw association id. -/
def lookupByHandle (cache : AssocCache) (handle : String) : Option String :=
  (cache.find? (fun e => e.1 == handle)).map (fun e => e.2)

/-- User-lookup servicing in `NfcClient::run`: resolve the handle to a raw
id in the cache, then fetch the user from the hardware; any missing step
replies `none`. -/
def handleUser (env : NfcEnv) (cache : AssocCache) (handle : String) : Option String :=
  (lookupByHandle cache handle).bind env.fetchUser

/-- Service one request inside the inner (listening) loop. -/
def nfcStep (env : NfcEnv) (cache : AssocCache) : NfcRequest → NfcReply × AssocCache
  | .tags poll game =>
    (NfcReply.tags (handleTags env cache poll game).1, (handleTags env cache poll game).2)
  | .user h => (.user (handleUser env cache h), cache)

/-- The inner service loop: service each request that arrives within the
idle window, threading the cache. -/
def serveLoop (env : NfcEnv) : List NfcRequest → AssocCache → List NfcReply × AssocCache
  | [], cache => ([], cache)
  | r :: rs, cache =>
    ((nfcStep env cache r).1 :: (serveLoop env rs (nfcStep env cache r).2).1,
      (serveLoop env rs (nfcStep env cache r).2).2)

/-- The immediate `send(None)` reply used when the listener cannot be
opened, for either request variant. -/
def noResultReply : NfcRequest → NfcReply
  | .tags _ _ => .tags none
  | .user _ => .user none

/-- One iteration of the outer loop of `NfcClient::run`: a request is
received while idle and the Gatekeeper listener is constructed.  On
construction failure the triggering request is answered with `none` and
the worker returns to idle without entering the service loop; on success
the inner loop services the triggering request and every further request
arriving within the 30-second idle window. -/
def nfcOuterStep (env : NfcEnv) (listenerOk : Bool) (trigger : NfcRequest)
    (withinWindow : List NfcRequest) (cache : AssocCache) : List NfcReply × AssocCache :=
  if listenerOk then serveLoop env (trigger :: withinWindow) cache
  else ([noResultReply trigger], cache)

/-- The `Player` schema type (external); only `P1` is accepted by
`nfc_tags`. -/
inductive Player
  | P1
  | P2
deriving DecidableEq, Repr

/-- Caller-facing result of the public api functions; `panicked` models a
failed `assert!`. -/
inductive ApiResult (α : Type)
  | ok (a : α)
  | err (msg : String)
  | panicked
deriving DecidableEq, Repr

/-- `NfcClient::submit` at the point the worker's reply arrives: the reply
is forwarded as-is (channel failures aside, which are modelled away as
the worker thread never exits). -/
def submit (reply : Option String) : Except String (Option String) := .ok reply

/-- `NfcClient::get_user`: a `none` reply from the worker is turned into
the error "User not found with that association ID". -/
def get_user (reply : Option String) : Except String String :=
  match reply with
  | some user => .ok user
  | none => .error "User not found with that association ID"

/-- `api::nfc_tags`: asserts the reader is `P1` (a panic otherwise), then
submits a tags request and maps channel errors. -/
def nfc_tags (reader_id : Player) (reply : Option String) : ApiResult (Option String) :=
  if reader_id = Player.P1 then
    match submit reply with
    | .ok r => .ok r
    | .error e => .err ("Couldn't get NFC tags: " ++ e)
  else .panicked

/-- `api::nfc_user`: forwards `get_user`, wrapping its error text. -/
def nfc_user (reply : Option String) : ApiResult String :=
  match get_user reply with
  | .ok u => .ok u
  | .error e => .err ("Couldn't get NFC user: " ++ e)

example : base64Decode "QUJD".data = some [65, 66, 67] := by decide
example : base64Decode "QQ==".data = some [65] := by decide
example : base64Decode "QR==".data = none := by decide
example : base64Decode "QQ".data = none := by decide
example : base64Encode [65] = "QQ==".data := by decide
example : flatpak_id_for_game ⟨"a-b", "n", "QQ=="⟩ =
    some "edu.rit.csh.devcade.generated_game.id_a_b.hash_41" := by decide

theorem symToVal_some {c : Char} {v : Nat} (h : symToVal c = some v) :
    v < 64 ∧ valToSym v = c := by
  have hcv : valCode v = c.toNat ∧ v < 64 := by
    unfold symToVal at h
    split_ifs at h with h1 h2 h3 h4 h5 <;>
      (injection h with hv; subst hv; unfold valCode; split_ifs <;> omega)
  refine ⟨hcv.2, ?_⟩
  unfold valToSym
  rw [hcv.1, Char.ofNat_toNat]

theorem base64Decode_sound_aux :
    ∀ (n : Nat) (s : List Char), s.length ≤ n → ∀ bs : List Nat,
      base64Decode s = some bs → base64Encode bs = s ∧ ∀ b ∈ bs, b < 256 := by
  intro n
  induction n with
  | zero =>
    intro s hs bs h
    have hnil : s = [] := List.eq_nil_of_length_eq_zero (Nat.le_zero.mp hs)
    subst hnil
    simp only [base64Decode, Option.some.injEq] at h
    subst h
    exact ⟨rfl, by simp⟩
  | succ n ih =>
    intro s hs bs h
    match s with
    | [] =>
      simp only [base64Decode, Option.some.injEq] at h
      subst h
      exact ⟨rfl, by simp⟩
    | [c1] => simp [base64Decode] at h
    | [c1, c2] => simp [base64Decode] at h
    | [c1, c2, c3] => simp [base64Decode] at h
    | c1 :: c2 :: c3 :: c4 :: rest =>
      simp only [base64Decode] at h
      cases hv1 : symToVal c1 with
      | none => rw [hv1] at h; simp at h
      | some v1 =>
      cases hv2 : symToVal c2 with
      | none => rw [hv1, hv2] at h; simp at h
      | some v2 =>
      rw [hv1, hv2] at h
      simp only [] at h
      obtain ⟨hb1, he1⟩ := symToVal_some hv1
      obtain ⟨hb2, he2⟩ := symToVal_some hv2
      by_cases hc3 : c3 = '='
      · rw [if_pos hc3] at h
        by_cases hc4 : c4 = '=' ∧ rest = []
        · rw [if_pos hc4] at h
          by_cases hm : v2 % 16 = 0
          · rw [if_pos hm] at h
            injection h with hbs
            subst hbs
            obtain ⟨hc4e, hre⟩ := hc4
            subst hc3; subst hc4e; subst hre
            refine ⟨?_, by intro b hb; simp at hb; omega⟩
            simp only [base64Encode]
            have e1 : (v1 * 4 + v2 / 16) / 4 = v1 := by omega
            have e2 : (v1 * 4 + v2 / 16) % 4 * 16 = v2 := by omega
            rw [e1, e2, he1, he2]
          · rw [if_neg hm] at h; simp at h
        · rw [if_neg hc4] at h; simp at h
      · rw [if_neg hc3] at h
        cases hv3 : symToVal c3 with
        | none => rw [hv3] at h; simp at h
        | some v3 =>
        rw [hv3] at h
        simp only [] at h
        obtain ⟨hb3, he3⟩ := symToVal_some hv3
        by_cases hc4 : c4 = '='
        · rw [if_pos hc4] at h
          by_cases hre : rest = []
          · rw [if_pos hre] at h
            by_cases hm : v3 % 4 = 0
            · rw [if_pos hm] at h
              injection h with hbs
              subst hbs
              subst hc4; subst hre
              refine ⟨?_, by intro b hb; simp at hb; rcases hb with hb | hb <;> omega⟩
              simp only [base64Encode]
              have e1 : (v1 * 4 + v2 / 16) / 4 = v1 := by omega
              have e2 : (v1 * 4 + v2 / 16) % 4 * 16 + (v2 % 16 * 16 + v3 / 4) / 16 = v2 := by
                omega
              have e3 : (v2 % 16 * 16 + v3 / 4) % 16 * 4 = v3 := by omega
              rw [e1, e2, e3, he1, he2, he3]
            · rw [if_neg hm] at h; simp at h
          · rw [if_neg hre] at h; simp at h
        · rw [if_neg hc4] at h
          cases hv4 : symToVal c4 with
          | none => rw [hv4] at h; simp at h
          | some v4 =>
          rw [hv4] at h
          simp only [] at h
          obtain ⟨hb4, he4⟩ := symToVal_some hv4
          cases hrest : base64Decode rest with
          | none => rw [hrest] at h; simp at h
          | some bs2 =>
          rw [hrest] at h
          simp only [Option.map_some', Option.some.injEq] at h
          subst h
          have hlen : rest.length ≤ n := by
            simp only [List.length_cons] at hs; omega
          obtain ⟨ihe, ihb⟩ := ih rest hlen bs2 hrest
          constructor
          · simp only [base64Encode]
            have e1 : (v1 * 4 + v2 / 16) / 4 = v1 := by omega
            have e2 : (v1 * 4 + v2 / 16) % 4 * 16 + (v2 % 16 * 16 + v3 / 4) / 16 = v2 := by
              omega
            have e3 : (v2 % 16 * 16 + v3 / 4) % 16 * 4 + (v3 % 4 * 64 + v4) / 64 = v3 := by
              omega
            have e4 : (v3 % 4 * 64 + v4) % 64 = v4 := by omega
            rw [e1, e2, e3, e4, he1, he2, he3, he4, ihe]
          · intro b hb
            simp only [List.mem_cons] at hb
            rcases hb with hb | hb | hb | hb
            · omega
            · omega
            · omega
            · exact ihb b hb

theorem base64Decode_sound {s : List Char} {bs : List Nat}
    (h : base64Decode s = some bs) : base64Encode bs = s :=
  (base64Decode_sound_aux s.length s le_rfl bs h).1

theorem base64Decode_lt {s : List Char} {bs : List Nat}
    (h : base64Decode s = some bs) : ∀ b ∈ bs, b < 256 :=
  (base64Decode_sound_aux s.length s le_rfl bs h).2

theorem hexDigit_ne_dot (n : Nat) : hexDigit n ≠ '.' := by
  unfold hexDigit
  split <;> decide

theorem hexDigit_inj : ∀ a < 16, ∀ b < 16, hexDigit a = hexDigit b → a = b := by
  decide

theorem hexEncode_no_dot : ∀ bs : List Nat, '.' ∉ hexEncode bs := by
  intro bs
  induction bs with
  | nil => simp [hexEncode]
  | cons b bs ih =>
    simp only [hexEncode, List.mem_cons, not_or]
    exact ⟨fun hc => hexDigit_ne_dot _ hc.symm, fun hc => hexDigit_ne_dot _ hc.symm, ih⟩

theorem hexEncode_inj : ∀ (bs1 bs2 : List Nat), (∀ b ∈ bs1, b < 256) → (∀ b ∈ bs2, b < 256) →
    hexEncode bs1 = hexEncode bs2 → bs1 = bs2 := by
  intro bs1
  induction bs1 with
  | nil =>
    intro bs2 _ _ h
    cases bs2 with
    | nil => rfl
    | cons b bs => simp [hexEncode] at h
  | cons a as ih =>
    intro bs2 hb1 hb2 h
    cases bs2 with
    | nil => simp [hexEncode] at h
    | cons b bs =>
      simp only [hexEncode, List.cons.injEq] at h
      obtain ⟨h1, h2, h3⟩ := h
      have ha : a < 256 := hb1 a (List.mem_cons_self a as)
      have hb : b < 256 := hb2 b (List.mem_cons_self b bs)
      have e1 : a / 16 = b / 16 := hexDigit_inj _ (by omega) _ (by omega) h1
      have e2 : a % 16 = b % 16 := hexDigit_inj _ (by omega) _ (by omega) h2
      have : a = b := by omega
      rw [this, ih bs (fun x hx => hb1 x (List.mem_cons_of_mem a hx))
        (fun x hx => hb2 x (List.mem_cons_of_mem b hx)) h3]

theorem append_split_at_char {c : Char} :
    ∀ (x1 x2 r1 r2 : List Char), c ∉ x1 → c ∉ x2 →
      x1 ++ c :: r1 = x2 ++ c :: r2 → x1 = x2 ∧ r1 = r2 := by
  intro x1
  induction x1 with
  | nil =>
    intro x2 r1 r2 h1 h2 heq
    cases x2 with
    | nil =>
      simp only [List.nil_append, List.cons.injEq] at heq
      exact ⟨rfl, heq.2⟩
    | cons y ys =>
      simp only [List.nil_append, List.cons_append, List.cons.injEq] at heq
      exact absurd (List.mem_cons_self y ys) (heq.1 ▸ h2)
  | cons a as ih =>
    intro x2 r1 r2 h1 h2 heq
    cases x2 with
    | nil =>
      simp only [List.cons_append, List.nil_append, List.cons.injEq] at heq
      exact absurd (List.mem_cons_self a as) (heq.1.symm ▸ h1)
    | cons y ys =>
      simp only [List.cons_append, List.cons.injEq] at heq
      obtain ⟨hay, htail⟩ := heq
      have hrec := ih ys r1 r2 (fun hc => h1 (List.mem_cons_of_mem a hc))
        (fun hc => h2 (List.mem_cons_of_mem y hc)) htail
      exact ⟨by rw [hay, hrec.1], hrec.2⟩

theorem append_split_last {c : Char} (x1 x2 r1 r2 : List Char) (hr1 : c ∉ r1) (hr2 : c ∉ r2)
    (heq : x1 ++ c :: r1 = x2 ++ c :: r2) : x1 = x2 ∧ r1 = r2 := by
  have h' := congrArg List.reverse heq
  simp only [List.reverse_append, List.reverse_cons, List.append_assoc,
    List.singleton_append] at h'
  have hm1 : c ∉ r1.reverse := by simpa using hr1
  have hm2 : c ∉ r2.reverse := by simpa using hr2
  obtain ⟨ha, hb⟩ := append_split_at_char r1.reverse r2.reverse x1.reverse x2.reverse hm1 hm2 h'
  refine ⟨?_, ?_⟩
  · have := congrArg List.reverse hb
    simpa using this
  · have := congrArg List.reverse ha
    simpa using this

theorem flatpak_id_characterization (g1 g2 : DevcadeGame) (b1 b2 : List Nat)
    (h1 : base64Decode g1.hash.data = some b1)
    (h2 : base64Decode g2.hash.data = some b2) :
    flatpak_id_for_game g1 = flatpak_id_for_game g2 ↔
      (replaceDashes g1.id = replaceDashes g2.id ∧ g1.hash = g2.hash) := by
  constructor
  · intro h
    unfold flatpak_id_for_game at h
    rw [h1, h2] at h
    simp only [Option.map_some', Option.some.injEq] at h
    have hd := congrArg String.data h
    have hmk : ∀ l : List Char, (String.mk l).data = l := fun _ => rfl
    simp only [String.data_append, hmk, List.append_assoc] at hd
    have hd2 := List.append_cancel_left hd
    have hsep : ∀ H : List Char, (".hash_" : String).data ++ H =
        '.' :: (['h', 'a', 's', 'h', '_'] ++ H) := fun _ => rfl
    rw [hsep, hsep] at hd2
    have hnd1 : '.' ∉ ['h', 'a', 's', 'h', '_'] ++ hexEncode b1 := by
      simp only [List.mem_append, not_or]
      exact ⟨by decide, hexEncode_no_dot b1⟩
    have hnd2 : '.' ∉ ['h', 'a', 's', 'h', '_'] ++ hexEncode b2 := by
      simp only [List.mem_append, not_or]
      exact ⟨by decide, hexEncode_no_dot b2⟩
    obtain ⟨hida, hhexa⟩ := append_split_last _ _ _ _ hnd1 hnd2 hd2
    have hhex : hexEncode b1 = hexEncode b2 := List.append_cancel_left hhexa
    have hb : b1 = b2 := hexEncode_inj b1 b2 (base64Decode_lt h1) (base64Decode_lt h2) hhex
    refine ⟨String.ext hida, String.ext ?_⟩
    rw [← base64Decode_sound h1, ← base64Decode_sound h2, hb]
  · rintro ⟨hid, hh⟩
    unfold flatpak_id_for_game
    rw [hh] at h1
    rw [h1] at h2
    injection h2 with hb
    rw [hh, hid]

/-- C1 counterexample: the games with identifiers `"a-b"` and `"a_b"` (same
hash) have different identifiers but are mapped to the same sandbox
identity, because `flatpak_id_for_game` replaces `-` with `_`.  This
refutes the part of the claim saying that changing the identifier always
yields a different identity string. -/
theorem c1_counterexample :
    (⟨"a-b", "n", ""⟩ : DevcadeGame).id ≠ (⟨"a_b", "n", ""⟩ : DevcadeGame).id ∧
      flatpak_id_for_game ⟨"a-b", "n", ""⟩ = flatpak_id_for_game ⟨"a_b", "n", ""⟩ := by
  constructor
  · decide
  · decide

/-- C1 (amended): the sandbox identity is a pure function of the pair
(identifier, hash); identical pairs always yield the same identity; for
game records whose hashes are valid base64, two identities coincide
exactly when the hashes coincide and the identifiers coincide after the
`-` to `_` normalization.  In particular changing the hash always changes
the identity, and changing the identifier changes the identity unless the
two identifiers differ only in `-` versus `_`. -/
theorem c1_sandbox_identity (g1 g2 : DevcadeGame) (b1 b2 : List Nat)
    (h1 : base64Decode g1.hash.data = some b1)
    (h2 : base64Decode g2.hash.data = some b2) :
    flatpak_id_for_game g1 = flatpak_id_for_game g2 ↔
      (replaceDashes g1.id = replaceDashes g2.id ∧ g1.hash = g2.hash) :=
  flatpak_id_characterization g1 g2 b1 b2 h1 h2

/-- Witness for C1 at the concrete games `("a", "QQ==")` and `("b", "QQ==")`. -/
theorem c1_sandbox_identity_witness :
    (flatpak_id_for_game ⟨"a", "n", "QQ=="⟩ = flatpak_id_for_game ⟨"b", "n", "QQ=="⟩ ↔
      (replaceDashes (⟨"a", "n", "QQ=="⟩ : DevcadeGame).id =
          replaceDashes (⟨"b", "n", "QQ=="⟩ : DevcadeGame).id ∧
        (⟨"a", "n", "QQ=="⟩ : DevcadeGame).hash = (⟨"b", "n", "QQ=="⟩ : DevcadeGame).hash)) :=
  c1_sandbox_identity ⟨"a", "n", "QQ=="⟩ ⟨"b", "n", "QQ=="⟩ [65] [65] (by decide) (by decide)

theorem download_game_resolved_head (env : DlEnv) (g : DevcadeGame) (ev0 : DlEv) :
    (download_game_resolved env g ev0).2.head? = some ev0 := by
  unfold download_game_resolved
  cases hf : flatpak_id_for_game g with
  | none => rfl
  | some fid =>
    cases hi : env.installed fid with
    | true => simp [hi]
    | false =>
      cases ha : env.archive with
      | none => simp [hi, ha]
      | some entries =>
        simp only [hi, ha, Bool.false_eq_true, if_false]
        split_ifs <;> simp

theorem download_game_eq (env : DlEnv) (g : DevcadeGame) (h : resolvesTo env g) :
    ∃ ev0, download_game env = download_game_resolved env g ev0 ∧
      (fun e => match e with | DlEv.build _ => true | _ => false) ev0 = false := by
  rcases h with hc | ⟨hc, hl⟩
  · exact ⟨.resolvedCatalog, by unfold download_game; rw [hc], rfl⟩
  · exact ⟨.resolvedLocal, by unfold download_game; rw [hc, hl], rfl⟩

/-- C2 counterexample: with the catalog unreachable and no local
`game.json`, `download_game` panics (the `.expect` in the Rust source)
with the message "Game not downloaded and we're offline!"; it does not
return an error value to the caller. -/
theorem c2_counterexample :
    (download_game ⟨none, none, fun _ => false, none, true, true, true⟩).1 =
      DlResult.panicked "Game not downloaded and we're offline!" := rfl

/-- C2 (amended): metadata resolution queries the catalog first; on a
catalog failure it falls back to the last-persisted local metadata
record; when neither source yields a record the call panics with
"Game not downloaded and we're offline!" (aborting instead of returning a
`MetadataUnavailable`-style error to the caller). -/
theorem c2_metadata_fallback (env : DlEnv) :
    (∀ g, env.catalog = some g →
      (download_game env).2.head? = some DlEv.resolvedCatalog) ∧
    (env.catalog = none → ∀ g, env.localMeta = some g →
      (download_game env).2.head? = some DlEv.resolvedLocal) ∧
    (env.catalog = none → env.localMeta = none →
      (download_game env).1 = DlResult.panicked "Game not downloaded and we're offline!") := by
  refine ⟨?_, ?_, ?_⟩
  · intro g hg
    unfold download_game
    rw [hg]
    exact download_game_resolved_head env g .resolvedCatalog
  · intro hc g hl
    unfold download_game
    rw [hc, hl]
    exact download_game_resolved_head env g .resolvedLocal
  · intro hc hl
    unfold download_game
    rw [hc, hl]

/-- Witness for C2 at a concrete environment where the catalog fails and
the local record exists: the local fallback is used. -/
theorem c2_metadata_fallback_witness :
    (download_game ⟨none, some ⟨"g", "n", "QQ=="⟩, fun _ => false, none,
        true, true, true⟩).2.head? = some DlEv.resolvedLocal :=
  (c2_metadata_fallback _).2.1 rfl ⟨"g", "n", "QQ=="⟩ rfl

theorem short_circuit (env : DlEnv) (g : DevcadeGame) (fid : String) (ev0 : DlEv)
    (hf : flatpak_id_for_game g = some fid) (hi : env.installed fid = true) :
    download_game_resolved env g ev0 = (.ok, [ev0, .probe fid]) := by
  unfold download_game_resolved
  rw [hf]
  simp [hi]

theorem countP_build_extract (entries : List ZipEntry) :
    List.countP (fun e => match e with | DlEv.build _ => true | _ => false)
      (extractArchive entries) = 0 := by
  rw [List.countP_eq_zero]
  intro ev hev
  unfold extractArchive at hev
  rw [List.mem_flatMap] at hev
  obtain ⟨p, _, hp⟩ := hev
  unfold extractEntry at hp
  split_ifs at hp <;> simp_all <;> rcases hp with rfl | rfl <;> rfl

theorem download_game_resolved_def (env : DlEnv) (g : DevcadeGame) (fid : String)
    (ev0 : DlEv) (hf : flatpak_id_for_game g = some fid) :
    download_game_resolved env g ev0 =
      (if env.installed fid then (.ok, [ev0, .probe fid])
       else
        match env.archive with
        | none => (.err .downloadFailed, [ev0, .probe fid])
        | some entries =>
          let pre := ev0 :: DlEv.probe fid :: DlEv.fetchedArchive :: extractArchive entries
          if env.metaDirOk = false then (.panicked "create_dir_all failed", pre)
          else if env.writeMetaOk then
            if env.buildOk then (.ok, pre ++ [.wroteMeta, .build fid])
            else (.err .buildFailed, pre ++ [.wroteMeta, .build fid])
          else (.err .writeMetaFailed, pre ++ [.warnedMeta])) := by
  unfold download_game_resolved
  rw [hf]

theorem download_game_resolved_miss (env : DlEnv) (g : DevcadeGame) (fid : String)
    (ev0 : DlEv) (entries : List ZipEntry) (hf : flatpak_id_for_game g = some fid)
    (hi : env.installed fid = false) (ha : env.archive = some entries) :
    download_game_resolved env g ev0 =
      (let pre := ev0 :: DlEv.probe fid :: DlEv.fetchedArchive :: extractArchive entries
       if env.metaDirOk = false then (.panicked "create_dir_all failed", pre)
       else if env.writeMetaOk then
         if env.buildOk then (.ok, pre ++ [.wroteMeta, .build fid])
         else (.err .buildFailed, pre ++ [.wroteMeta, .build fid])
       else (.err .writeMetaFailed, pre ++ [.warnedMeta])) := by
  rw [download_game_resolved_def env g fid ev0 hf, hi, ha]
  simp only [Bool.false_eq_true, if_false]

theorem ok_structure (env : DlEnv) (g : DevcadeGame) (fid : String) (ev0 : DlEv)
    (hf : flatpak_id_for_game g = some fid)
    (h0 : (fun e => match e with | DlEv.build _ => true | _ => false) ev0 = false)
    (hok : (download_game_resolved env g ev0).1 = .ok) :
    (env.installed fid = true ∧ countBuild (download_game_resolved env g ev0).2 = 0) ∨
      countBuild (download_game_resolved env g ev0).2 = 1 := by
  cases hi : env.installed fid with
  | true =>
    rw [short_circuit env g fid ev0 hf hi]
    left
    exact ⟨rfl, by simp [countBuild, List.countP_cons, h0]⟩
  | false =>
    cases ha : env.archive with
    | none =>
      have hv : download_game_resolved env g ev0 =
          (.err .downloadFailed, [ev0, .probe fid]) := by
        rw [download_game_resolved_def env g fid ev0 hf, hi, ha]
        simp
      rw [hv] at hok
      simp at hok
    | some entries =>
      rw [download_game_resolved_miss env g fid ev0 entries hf hi ha] at hok ⊢
      by_cases hm : env.metaDirOk = false
      · simp only [hm, if_true] at hok
        simp at hok
      · simp only [hm, if_false] at hok ⊢
        cases hw : env.writeMetaOk with
        | false =>
          simp only [hw, Bool.false_eq_true, if_false] at hok
          simp at hok
        | true =>
          simp only [hw, if_true] at hok ⊢
          cases hb : env.buildOk with
          | false =>
            simp only [hb, Bool.false_eq_true, if_false] at hok
            simp at hok
          | true =>
            simp only [hb, if_true]
            right
            simp [countBuild, List.countP_append, List.countP_cons, h0,
              countP_build_extract entries]

/-- C3: provisioning is idempotent with respect to the installed-sandbox
probe.  If the probe succeeds for the resolved record's identity, the
call returns success with a trace containing only the resolution and the
probe: no archive fetch, no extraction, no metadata write, no build.
Consequently, when the first of two successive calls for the same
identity succeeds and a successful first call leaves the sandbox
installed for the second (`hmono`/`hbuilt`), the two calls together
perform at most one external build invocation. -/
theorem c3_idempotent_provisioning (env1 env2 : DlEnv) (g1 g2 : DevcadeGame) (fid : String)
    (hr1 : resolvesTo env1 g1) (hr2 : resolvesTo env2 g2)
    (hf1 : flatpak_id_for_game g1 = some fid) (hf2 : flatpak_id_for_game g2 = some fid)
    (hmono : env1.installed fid = true → env2.installed fid = true)
    (hbuilt : countBuild (download_game env1).2 = 1 → env2.installed fid = true) :
    (env1.installed fid = true →
      ∃ ev0, download_game env1 = (.ok, [ev0, DlEv.probe fid])) ∧
    ((download_game env1).1 = .ok →
      countBuild (download_game env1).2 + countBuild (download_game env2).2 ≤ 1) := by
  obtain ⟨ev1, hd1, hb1⟩ := download_game_eq env1 g1 hr1
  obtain ⟨ev2, hd2, hb2⟩ := download_game_eq env2 g2 hr2
  constructor
  · intro hi
    exact ⟨ev1, by rw [hd1, short_circuit env1 g1 fid ev1 hf1 hi]⟩
  · intro hok
    rw [hd1] at hok
    have hcount2_of_installed : env2.installed fid = true →
        countBuild (download_game env2).2 = 0 := by
      intro hi2
      rw [hd2, short_circuit env2 g2 fid ev2 hf2 hi2]
      simp [countBuild, List.countP_cons, hb2]
    rcases ok_structure env1 g1 fid ev1 hf1 hb1 hok with ⟨hi1, hc0⟩ | hc1
    · rw [hd1, hc0, hcount2_of_installed (hmono hi1)]
      omega
    · rw [hd1, hc1, hcount2_of_installed (hbuilt (by rw [hd1]; exact hc1))]

/-- Witness for C3: a concrete environment whose probe reports the
sandbox as installed short-circuits, and two calls build at most once. -/
theorem c3_idempotent_provisioning_witness :
    ((⟨some ⟨"g", "n", "QQ=="⟩, none, fun _ => true, none, true, true, true⟩ : DlEnv).installed
        "edu.rit.csh.devcade.generated_game.id_g.hash_41" = true →
      ∃ ev0, download_game ⟨some ⟨"g", "n", "QQ=="⟩, none, fun _ => true, none, true, true, true⟩ =
        (.ok, [ev0, DlEv.probe "edu.rit.csh.devcade.generated_game.id_g.hash_41"])) ∧
    ((download_game ⟨some ⟨"g", "n", "QQ=="⟩, none, fun _ => true, none, true, true, true⟩).1 =
        .ok →
      countBuild
          (download_game
            ⟨some ⟨"g", "n", "QQ=="⟩, none, fun _ => true, none, true, true, true⟩).2 +
        countBuild
          (download_game
            ⟨some ⟨"g", "n", "QQ=="⟩, none, fun _ => true, none, true, true, true⟩).2 ≤ 1) :=
  c3_idempotent_provisioning
    ⟨some ⟨"g", "n", "QQ=="⟩, none, fun _ => true, none, true, true, true⟩
    ⟨some ⟨"g", "n", "QQ=="⟩, none, fun _ => true, none, true, true, true⟩
    ⟨"g", "n", "QQ=="⟩ ⟨"g", "n", "QQ=="⟩
    "edu.rit.csh.devcade.generated_game.id_g.hash_41"
    (Or.inl rfl) (Or.inl rfl) (by decide) (by decide) (fun h => h) (fun _ => rfl)

theorem extractEntry_ne_nil (i : Nat) (e : ZipEntry) : extractEntry i e ≠ [] := by
  unfold extractEntry
  split_ifs <;> simp

theorem mem_enumFrom_of_get? {α : Type} :
    ∀ (l : List α) (n i : Nat) (e : α), l.get? i = some e → (n + i, e) ∈ l.enumFrom n := by
  intro l
  induction l with
  | nil => intro n i e h; simp at h
  | cons a t ih =>
    intro n i e h
    cases i with
    | zero =>
      simp only [List.get?] at h
      injection h with h
      subst h
      simp [List.enumFrom]
    | succ i =>
      simp only [List.get?] at h
      have := ih (n + 1) i e h
      simp only [List.enumFrom, List.mem_cons]
      right
      have harith : n + (i + 1) = n + 1 + i := by omega
      rw [harith]
      exact this

theorem mem_enum_of_get? {α : Type} (l : List α) (i : Nat) (e : α)
    (h : l.get? i = some e) : (i, e) ∈ l.enum := by
  have := mem_enumFrom_of_get? l 0 i e h
  simpa [List.enum] using this

theorem mem_trace_of_entry {entries : List ZipEntry} {i : Nat} {e : ZipEntry}
    (hq : entries.get? i = some e) (ev0 : DlEv) (fid : String) (tail : List DlEv) :
    ∃ ev, ev ∈ extractEntry i e ∧
      ev ∈ ev0 :: DlEv.probe fid :: DlEv.fetchedArchive :: (extractArchive entries ++ tail) := by
  obtain ⟨ev, hev⟩ := List.exists_mem_of_ne_nil _ (extractEntry_ne_nil i e)
  refine ⟨ev, hev, ?_⟩
  simp only [List.mem_cons]
  right; right; right
  rw [List.mem_append]
  left
  unfold extractArchive
  rw [List.mem_flatMap]
  exact ⟨(i, e), mem_enum_of_get? entries i e hq, hev⟩

theorem download_game_resolved_ready (env : DlEnv) (g : DevcadeGame) (fid : String)
    (ev0 : DlEv) (entries : List ZipEntry) (hf : flatpak_id_for_game g = some fid)
    (hi : env.installed fid = false) (ha : env.archive = some entries)
    (hm : env.metaDirOk = true) :
    download_game_resolved env g ev0 =
      (let pre := ev0 :: DlEv.probe fid :: DlEv.fetchedArchive :: extractArchive entries
       if env.writeMetaOk then
         if env.buildOk then (.ok, pre ++ [.wroteMeta, .build fid])
         else (.err .buildFailed, pre ++ [.wroteMeta, .build fid])
       else (.err .writeMetaFailed, pre ++ [.warnedMeta])) := by
  rw [download_game_resolved_miss env g fid ev0 entries hf hi ha, hm]
  simp

/-- C4: archive extraction is best-effort per entry.  On a cache miss
with a downloaded archive, whatever the per-entry outcomes are, the trace
contains the full extraction of every entry followed by the metadata
write (attempted even when entries failed), every entry of the archive
contributes at least one processing event to the trace, and the call's
result does not depend on the per-entry outcomes at all. -/
theorem c4_best_effort_extraction (env : DlEnv) (g : DevcadeGame) (fid : String)
    (entries : List ZipEntry) (hr : resolvesTo env g)
    (hf : flatpak_id_for_game g = some fid) (hi : env.installed fid = false)
    (ha : env.archive = some entries) (hm : env.metaDirOk = true) :
    (∃ ev0 tail, (download_game env).2 =
      ev0 :: DlEv.probe fid :: DlEv.fetchedArchive :: (extractArchive entries ++ tail)) ∧
    (∀ i e, entries.get? i = some e →
      ∃ ev, ev ∈ extractEntry i e ∧ ev ∈ (download_game env).2) ∧
    (DlEv.wroteMeta ∈ (download_game env).2 ∨ DlEv.warnedMeta ∈ (download_game env).2) ∧
    (download_game env).1 =
      (if env.writeMetaOk then (if env.buildOk then .ok else .err .buildFailed)
       else .err .writeMetaFailed) := by
  obtain ⟨ev0, hd, _⟩ := download_game_eq env g hr
  rw [hd, download_game_resolved_ready env g fid ev0 entries hf hi ha hm]
  cases hw : env.writeMetaOk with
  | true =>
    cases hb : env.buildOk with
    | true =>
      simp only [hw, hb, if_true]
      refine ⟨⟨ev0, [DlEv.wroteMeta, DlEv.build fid], by simp⟩, ?_, ?_, by simp⟩
      · intro i e hq
        simpa using mem_trace_of_entry hq ev0 fid [DlEv.wroteMeta, DlEv.build fid]
      · left; simp
    | false =>
      simp only [hw, hb, if_true, Bool.false_eq_true, if_false]
      refine ⟨⟨ev0, [DlEv.wroteMeta, DlEv.build fid], by simp⟩, ?_, ?_, by simp⟩
      · intro i e hq
        simpa using mem_trace_of_entry hq ev0 fid [DlEv.wroteMeta, DlEv.build fid]
      · left; simp
  | false =>
    simp only [hw, Bool.false_eq_true, if_false]
    refine ⟨⟨ev0, [DlEv.warnedMeta], by simp⟩, ?_, ?_, by simp⟩
    · intro i e hq
      simpa using mem_trace_of_entry hq ev0 fid [DlEv.warnedMeta]
    · right; simp

/-- Witness for C4 at a concrete environment: a two-entry archive whose
second entry fails file creation still yields a full extraction trace, a
metadata write and a result independent of the failure. -/
theorem c4_best_effort_extraction_witness :
    (∃ ev0 tail,
      (download_game ⟨some ⟨"g", "n", "QQ=="⟩, none, fun _ => false,
          some [⟨"dir/", true, true, true, true, true, true⟩,
            ⟨"f.txt", true, true, false, true, false, true⟩], true, true, true⟩).2 =
        ev0 :: DlEv.probe "edu.rit.csh.devcade.generated_game.id_g.hash_41" ::
          DlEv.fetchedArchive ::
            (extractArchive [⟨"dir/", true, true, true, true, true, true⟩,
              ⟨"f.txt", true, true, false, true, false, true⟩] ++ tail)) ∧
    (∀ i e, [(⟨"dir/", true, true, true, true, true, true⟩ : ZipEntry),
        ⟨"f.txt", true, true, false, true, false, true⟩].get? i = some e →
      ∃ ev, ev ∈ extractEntry i e ∧
        ev ∈ (download_game ⟨some ⟨"g", "n", "QQ=="⟩, none, fun _ => false,
          some [⟨"dir/", true, true, true, true, true, true⟩,
            ⟨"f.txt", true, true, false, true, false, true⟩], true, true, true⟩).2) ∧
    (DlEv.wroteMeta ∈ (download_game ⟨some ⟨"g", "n", "QQ=="⟩, none, fun _ => false,
        some [⟨"dir/", true, true, true, true, true, true⟩,
          ⟨"f.txt", true, true, false, true, false, true⟩], true, true, true⟩).2 ∨
      DlEv.warnedMeta ∈ (download_game ⟨some ⟨"g", "n", "QQ=="⟩, none, fun _ => false,
        some [⟨"dir/", true, true, true, true, true, true⟩,
          ⟨"f.txt", true, true, false, true, false, true⟩], true, true, true⟩).2) ∧
    (download_game ⟨some ⟨"g", "n", "QQ=="⟩, none, fun _ => false,
        some [⟨"dir/", true, true, true, true, true, true⟩,
          ⟨"f.txt", true, true, false, true, false, true⟩], true, true, true⟩).1 =
      (if (⟨some ⟨"g", "n", "QQ=="⟩, none, fun _ => false,
          some [⟨"dir/", true, true, true, true, true, true⟩,
            ⟨"f.txt", true, true, false, true, false, true⟩], true, true, true⟩ : DlEnv).writeMetaOk
       then (if (⟨some ⟨"g", "n", "QQ=="⟩, none, fun _ => false,
          some [⟨"dir/", true, true, true, true, true, true⟩,
            ⟨"f.txt", true, true, false, true, false, true⟩], true, true,
              true⟩ : DlEnv).buildOk then .ok else .err .buildFailed)
       else .err .writeMetaFailed) :=
  c4_best_effort_extraction
    ⟨some ⟨"g", "n", "QQ=="⟩, none, fun _ => false,
      some [⟨"dir/", true, true, true, true, true, true⟩,
        ⟨"f.txt", true, true, false, true, false, true⟩], true, true, true⟩
    ⟨"g", "n", "QQ=="⟩ "edu.rit.csh.devcade.generated_game.id_g.hash_41"
    [⟨"dir/", true, true, true, true, true, true⟩,
      ⟨"f.txt", true, true, false, true, false, true⟩]
    (Or.inl rfl) (by decide) rfl rfl rfl

theorem spawned_not_mem_map_dl (fid : String) (t : List DlEv) :
    LEv.spawned fid ∉ t.map LEv.dl := by
  simp [List.mem_map]

theorem launch_game_nometa (env : LaunchEnv) (t : List DlEv)
    (hdl : download_game env.dl = (.ok, t)) (hm2 : env.meta2 = none) :
    launch_game env = (.errMeta, t.map LEv.dl) := by
  unfold launch_game
  rw [hdl, hm2]

theorem launch_game_err (env : LaunchEnv) (t : List DlEv) (e : DlErr)
    (hdl : download_game env.dl = (.err e, t)) :
    launch_game env = (.errDownload e, t.map LEv.dl) := by
  unfold launch_game
  rw [hdl]

theorem launch_game_panic (env : LaunchEnv) (t : List DlEv) (m : String)
    (hdl : download_game env.dl = (.panicked m, t)) :
    launch_game env = (.panicked m, t.map LEv.dl) := by
  unfold launch_game
  rw [hdl]

theorem launch_game_ok (env : LaunchEnv) (t : List DlEv) (g : DevcadeGame)
    (hdl : download_game env.dl = (.ok, t)) (hm2 : env.meta2 = some g) :
    launch_game env =
      (let t1 := t.map LEv.dl ++
         (if env.flushOk then [LEv.flushed] else [LEv.warnedFlush]) ++ [LEv.published g]
       match flatpak_id_for_game g with
       | none => (LResult.panicked "invalid base64 hash", t1)
       | some fid =>
         if env.spawnOk then (.ok, t1 ++ [.spawned fid, .settled])
         else (.panicked "Failed to launch game", t1)) := by
  unfold launch_game
  rw [hdl, hm2]

/-- C5: for every launch call that reaches the spawn step, the launched
record is published to the current-game slot strictly before the spawn
event, and a failed persistence flush only adds a logged warning: with
the flush failing, the call still publishes, spawns and succeeds. -/
theorem c5_publish_before_spawn (env : LaunchEnv) :
    (∀ fid, LEv.spawned fid ∈ (launch_game env).2 →
      ∃ pre g post, (launch_game env).2 = pre ++ LEv.published g :: post ∧
        LEv.spawned fid ∈ post) ∧
    (∀ g fid, (download_game env.dl).1 = .ok → env.meta2 = some g →
      flatpak_id_for_game g = some fid → env.spawnOk = true → env.flushOk = false →
      launch_game env = (.ok, (download_game env.dl).2.map LEv.dl ++
        [.warnedFlush, .published g, .spawned fid, .settled])) := by
  constructor
  · intro fid hmem
    rcases hdl : download_game env.dl with ⟨r, t⟩
    cases r with
    | ok =>
      cases hm2 : env.meta2 with
      | none =>
        rw [launch_game_nometa env t hdl hm2] at hmem
        exact absurd hmem (spawned_not_mem_map_dl fid t)
      | some game =>
        rw [launch_game_ok env t game hdl hm2] at hmem
        cases hfid : flatpak_id_for_game game with
        | none =>
          rw [hfid] at hmem
          simp only [List.mem_append, List.mem_cons, List.not_mem_nil, or_false] at hmem
          rcases hmem with (h | h) | h
          · exact absurd h (spawned_not_mem_map_dl fid t)
          · cases hfl : env.flushOk <;> rw [hfl] at h <;> simp at h
          · simp at h
        | some fid2 =>
          rw [hfid] at hmem
          cases hsp : env.spawnOk with
          | false =>
            rw [hsp] at hmem
            simp only [Bool.false_eq_true, if_false, List.mem_append, List.mem_cons,
              List.not_mem_nil, or_false] at hmem
            rcases hmem with (h | h) | h
            · exact absurd h (spawned_not_mem_map_dl fid t)
            · cases hfl : env.flushOk <;> rw [hfl] at h <;> simp at h
            · simp at h
          | true =>
            rw [hsp] at hmem
            simp only [if_true, List.mem_append, List.mem_cons,
              List.not_mem_nil, or_false] at hmem
            refine ⟨t.map LEv.dl ++ (if env.flushOk then [LEv.flushed] else [LEv.warnedFlush]),
              game, [LEv.spawned fid2, LEv.settled], ?_, ?_⟩
            · rw [launch_game_ok env t game hdl hm2, hfid, hsp]
              simp
            · rcases hmem with ((h | h) | h) | h | h
              · exact absurd h (spawned_not_mem_map_dl fid t)
              · cases hfl : env.flushOk <;> rw [hfl] at h <;> simp at h
              · simp at h
              · simp [h]
              · simp at h
    | err e =>
      rw [launch_game_err env t e hdl] at hmem
      exact absurd hmem (spawned_not_mem_map_dl fid t)
    | panicked m =>
      rw [launch_game_panic env t m hdl] at hmem
      exact absurd hmem (spawned_not_mem_map_dl fid t)
  · intro g fid hok hm2 hfid hsp hfl
    rcases hdl : download_game env.dl with ⟨r, t⟩
    rw [hdl] at hok
    have hr : r = DlResult.ok := hok
    subst hr
    rw [launch_game_ok env t g hdl hm2, hfid, hsp, hfl]
    simp

/-- Witness for C5: a concrete launch with a failing flush still
publishes before spawning and succeeds. -/
theorem c5_publish_before_spawn_witness :
    launch_game ⟨⟨some ⟨"g", "n", "QQ=="⟩, none, fun _ => true, none, true, true, true⟩,
        some ⟨"g", "n", "QQ=="⟩, false, true⟩ =
      (.ok, (download_game ⟨some ⟨"g", "n", "QQ=="⟩, none, fun _ => true, none,
          true, true, true⟩).2.map LEv.dl ++
        [.warnedFlush, .published ⟨"g", "n", "QQ=="⟩,
          .spawned "edu.rit.csh.devcade.generated_game.id_g.hash_41", .settled]) :=
  (c5_publish_before_spawn
    ⟨⟨some ⟨"g", "n", "QQ=="⟩, none, fun _ => true, none, true, true, true⟩,
      some ⟨"g", "n", "QQ=="⟩, false, true⟩).2
    ⟨"g", "n", "QQ=="⟩ "edu.rit.csh.devcade.generated_game.id_g.hash_41"
    rfl rfl (by decide) rfl rfl

theorem string_append_cancel_right {s1 s2 t : String} (h : s1 ++ t = s2 ++ t) :
    s1 = s2 := by
  have hd := congrArg String.data h
  simp only [String.data_append] at hd
  exact String.ext (List.append_cancel_right hd)

theorem string_append_cancel_left {s t1 t2 : String} (h : s ++ t1 = s ++ t2) :
    t1 = t2 := by
  have hd := congrArg String.data h
  simp only [String.data_append] at hd
  exact String.ext (List.append_cancel_left hd)

theorem deriveHandle_ne_of_raw_ne (env : NfcEnv) (hinj : Function.Injective env.digest)
    (g : String) {r1 r2 : String} (h : r1 ≠ r2) :
    deriveHandle env r1 g ≠ deriveHandle env r2 g := by
  intro he
  apply h
  have hin := hinj he
  exact string_append_cancel_right (string_append_cancel_right hin)

theorem deriveHandle_ne_of_game_ne (env : NfcEnv) (hinj : Function.Injective env.digest)
    (raw : String) {g1 g2 : String} (h : g1 ≠ g2) :
    deriveHandle env raw g1 ≠ deriveHandle env raw g2 := by
  intro he
  apply h
  exact string_append_cancel_left (hinj he)

/-- C6: in the idle state, a request whose listener construction fails is
answered "no result" (for both the tags-poll and the user-lookup
variant), the cache is untouched, no later request is consumed and the
worker is back to idle — the caller gets exactly one reply, not a crash
or a hang. -/
theorem c6_listener_open_failure (env : NfcEnv) (rest : List NfcRequest)
    (cache : AssocCache) :
    (∀ poll game, nfcOuterStep env false (.tags poll game) rest cache =
      ([NfcReply.tags none], cache)) ∧
    (∀ handle, nfcOuterStep env false (.user handle) rest cache =
      ([NfcReply.user none], cache)) :=
  ⟨fun _ _ => rfl, fun _ => rfl⟩

theorem find?_raw_none {cache : AssocCache} {raw : String}
    (h : raw ∉ cache.map Prod.snd) :
    cache.find? (fun e => e.2 == raw) = none := by
  induction cache with
  | nil => rfl
  | cons e t ih =>
    simp only [List.map_cons, List.mem_cons, not_or] at h
    rw [List.find?_cons, show (e.2 == raw) = false from
      beq_eq_false_iff_ne.mpr (fun hh => h.1 hh.symm)]
    exact ih h.2

theorem nfcStep_tags_fresh (env : NfcEnv) (cache : AssocCache) (raw game : String)
    (h : raw ∉ cache.map Prod.snd) :
    nfcStep env cache (.tags (some raw) game) =
      (.tags (some (deriveHandle env raw game)),
        rbPush cache (deriveHandle env raw game, raw)) := by
  simp [nfcStep, handleTags, find?_raw_none h]

theorem rbPush_snd_mem {cache : AssocCache} {x : String × String} {y : String}
    (h : y ∈ (rbPush cache x).map Prod.snd) : y ∈ cache.map Prod.snd ∨ y = x.2 := by
  unfold rbPush at h
  split_ifs at h with hl
  · simp only [List.map_append, List.mem_append, List.map_cons, List.map_nil,
      List.mem_singleton] at h
    exact h
  · cases cache with
    | nil => exact absurd (by simp) hl
    | cons e t =>
      simp only [List.tail_cons, List.map_append, List.mem_append, List.map_cons,
        List.map_nil, List.mem_singleton] at h
      rcases h with h | h
      · exact Or.inl (by simp only [List.map_cons, List.mem_cons]; right; exact h)
      · exact Or.inr h

theorem serveLoop_snd_fresh (env : NfcEnv) (game : String) :
    ∀ (raws : List String) (cache : AssocCache), raws.Nodup →
      (∀ r ∈ raws, r ∉ cache.map Prod.snd) →
      (serveLoop env (raws.map (fun r => NfcRequest.tags (some r) game)) cache).2 =
        raws.foldl (fun c r => rbPush c (deriveHandle env r game, r)) cache := by
  intro raws
  induction raws with
  | nil => intro cache _ _; rfl
  | cons a as ih =>
    intro cache hnd hfresh
    simp only [List.map_cons, serveLoop, List.foldl_cons]
    rw [nfcStep_tags_fresh env cache a game (hfresh a (List.mem_cons_self a as))]
    apply ih
    · exact (List.nodup_cons.mp hnd).2
    · intro r hr hmem
      rcases rbPush_snd_mem hmem with hm | hm
      · exact hfresh r (List.mem_cons_of_mem a hr) hm
      · have hra : r = a := hm
        exact (List.nodup_cons.mp hnd).1 (hra ▸ hr)

theorem lookupByHandle_cons_ne {e : String × String} {t : AssocCache} {h : String}
    (hne : e.1 ≠ h) : lookupByHandle (e :: t) h = lookupByHandle t h := by
  unfold lookupByHandle
  rw [List.find?_cons, show (e.1 == h) = false from beq_eq_false_iff_ne.mpr hne]

theorem lookupByHandle_pairwise {cache : AssocCache}
    (hpw : cache.Pairwise (fun e1 e2 => e1.1 ≠ e2.1)) {h a : String}
    (hm : (h, a) ∈ cache) : lookupByHandle cache h = some a := by
  induction cache with
  | nil => simp at hm
  | cons e t ih =>
    rcases List.mem_cons.mp hm with he | ht
    · rw [← he]
      unfold lookupByHandle
      rw [List.find?_cons]
      simp
    · have hne : e.1 ≠ h := by
        have := (List.pairwise_cons.mp hpw).1 (h, a) ht
        simpa using this
      rw [lookupByHandle_cons_ne hne]
      exact ih (List.pairwise_cons.mp hpw).2 ht

theorem lookupByHandle_none {cache : AssocCache} {h : String}
    (hn : ∀ e ∈ cache, e.1 ≠ h) : lookupByHandle cache h = none := by
  induction cache with
  | nil => rfl
  | cons e t ih =>
    rw [lookupByHandle_cons_ne (hn e (List.mem_cons_self e t))]
    exact ih (fun x hx => hn x (List.mem_cons_of_mem e hx))

/-- C7: the association cache is an oldest-first ring of capacity 8.
Starting from an empty cache, polling nine distinct raw ids (under one
current game, with a collision-free digest) leaves exactly the entries
for ids 2 through 9, each still resolvable by its handle through the
user-lookup path, while the entry for the 1st id is evicted: no cache
entry carries it and looking up its handle yields nothing. -/
theorem c7_ring_eviction (env : NfcEnv) (g a1 a2 a3 a4 a5 a6 a7 a8 a9 : String)
    (hinj : Function.Injective env.digest)
    (hnd : [a1, a2, a3, a4, a5, a6, a7, a8, a9].Nodup) :
    (serveLoop env ([a1, a2, a3, a4, a5, a6, a7, a8, a9].map
        (fun r => NfcRequest.tags (some r) g)) []).2 =
      [a2, a3, a4, a5, a6, a7, a8, a9].map (fun a => (deriveHandle env a g, a)) ∧
    (∀ e ∈ (serveLoop env ([a1, a2, a3, a4, a5, a6, a7, a8, a9].map
        (fun r => NfcRequest.tags (some r) g)) []).2, e.2 ≠ a1) ∧
    lookupByHandle (serveLoop env ([a1, a2, a3, a4, a5, a6, a7, a8, a9].map
        (fun r => NfcRequest.tags (some r) g)) []).2 (deriveHandle env a1 g) = none ∧
    (∀ a ∈ [a2, a3, a4, a5, a6, a7, a8, a9],
      handleUser env (serveLoop env ([a1, a2, a3, a4, a5, a6, a7, a8, a9].map
        (fun r => NfcRequest.tags (some r) g)) []).2 (deriveHandle env a g) =
        env.fetchUser a) := by
  have hmem1 : a1 ∉ [a2, a3, a4, a5, a6, a7, a8, a9] := (List.nodup_cons.mp hnd).1
  have hndtail : [a2, a3, a4, a5, a6, a7, a8, a9].Nodup := (List.nodup_cons.mp hnd).2
  have hset : (serveLoop env ([a1, a2, a3, a4, a5, a6, a7, a8, a9].map
      (fun r => NfcRequest.tags (some r) g)) []).2 =
      [a2, a3, a4, a5, a6, a7, a8, a9].map (fun a => (deriveHandle env a g, a)) := by
    rw [serveLoop_snd_fresh env g [a1, a2, a3, a4, a5, a6, a7, a8, a9] [] hnd (by simp)]
    simp [List.foldl_cons, List.foldl_nil, rbPush]
  have hpw : ([a2, a3, a4, a5, a6, a7, a8, a9].map
      (fun a => (deriveHandle env a g, a))).Pairwise (fun e1 e2 => e1.1 ≠ e2.1) :=
    List.Pairwise.map _ (fun x y hxy => deriveHandle_ne_of_raw_ne env hinj g hxy) hndtail
  refine ⟨hset, ?_, ?_, ?_⟩
  · intro e he
    rw [hset] at he
    simp only [List.mem_map] at he
    obtain ⟨a, ha, rfl⟩ := he
    intro hcontra
    have haa : a = a1 := hcontra
    exact hmem1 (haa ▸ ha)
  · rw [hset]
    apply lookupByHandle_none
    intro e he
    simp only [List.mem_map] at he
    obtain ⟨a, ha, rfl⟩ := he
    exact deriveHandle_ne_of_raw_ne env hinj g (fun h => hmem1 (h ▸ ha))
  · intro a ha
    rw [hset]
    unfold handleUser
    rw [lookupByHandle_pairwise hpw (List.mem_map.mpr ⟨a, ha, rfl⟩)]
    rfl

/-- Witness for C7 with the identity digest and raw ids "1" through "9":
the final cache holds exactly the entries for ids 2 through 9. -/
theorem c7_ring_eviction_witness :
    (serveLoop ⟨fun s => s, fun r => some r⟩
        (["1", "2", "3", "4", "5", "6", "7", "8", "9"].map
          (fun r => NfcRequest.tags (some r) "g")) []).2 =
      ["2", "3", "4", "5", "6", "7", "8", "9"].map
        (fun a => (deriveHandle ⟨fun s => s, fun r => some r⟩ a "g", a)) :=
  (c7_ring_eviction ⟨fun s => s, fun r => some r⟩ "g" "1" "2" "3" "4" "5" "6" "7" "8" "9"
    (fun _ _ h => h) (by decide)).1

/-- C8 counterexample: a "no result" broker reply to a user lookup is
turned by `get_user`/`nfc_user` into a hard error ("User not found with
that association ID", wrapped by `nfc_user`), not a non-error empty
value. -/
theorem c8_counterexample :
    nfc_user none = .err "Couldn't get NFC user: User not found with that association ID" :=
  rfl

/-- C8 (amended): a "no result" broker reply is returned to the caller of
the tags-poll operation as the non-error empty value `Ok(None)`, but the
user-lookup operation converts a "no result" reply into an error
("User not found with that association ID"), which `nfc_user` forwards to
its caller. -/
theorem c8_no_result_handling :
    nfc_tags Player.P1 none = .ok none ∧
    (∀ reply : Option String, nfc_tags Player.P1 reply = .ok reply) ∧
    nfc_user none = .err "Couldn't get NFC user: User not found with that association ID" :=
  ⟨rfl, fun _ => rfl, rfl⟩

/-- C9 counterexample: with the identity digest (which is injective, so
the counterexample is not a digest collision), the same raw id "r" polled
first under current game "g1" and then under current game "g2" receives
the same handle both times, because the second poll finds the raw id in
the cache and returns the handle derived at first insertion. -/
theorem c9_counterexample :
    ("g1" : String) ≠ "g2" ∧
    (serveLoop ⟨fun s => s, fun _ => none⟩
        [.tags (some "r") "g1", .tags (some "r") "g2"] []).1 =
      [NfcReply.tags (some "r:g1"), NfcReply.tags (some "r:g1")] :=
  ⟨by decide, by decide⟩

/-- C9 (amended): a handle is derived at insertion time as the digest of
`raw:game`, so freshly derived handles for the same raw id under two
different current games differ (given a collision-free digest); but a
poll that finds the raw id already cached replies with the cached handle
regardless of the now-current game, leaving the cache unchanged — two
polls under different games yield different handles only if the raw id is
not cached at the second poll. -/
theorem c9_handle_unlinkability (env : NfcEnv) (raw g1 g2 : String)
    (hinj : Function.Injective env.digest) (hne : g1 ≠ g2) :
    deriveHandle env raw g1 ≠ deriveHandle env raw g2 ∧
    (∀ (cache : AssocCache) (e : String × String),
      cache.find? (fun x => x.2 == raw) = some e →
      nfcStep env cache (.tags (some raw) g2) = (.tags (some e.1), cache)) := by
  constructor
  · exact deriveHandle_ne_of_game_ne env hinj raw hne
  · intro cache e hfound
    simp [nfcStep, handleTags, hfound]

/-- Witness for C9 with the identity digest: the two derived handles for
"r" under "g1" and "g2" differ. -/
theorem c9_handle_unlinkability_witness :
    deriveHandle ⟨fun s => s, fun _ => none⟩ "r" "g1" ≠
      deriveHandle ⟨fun s => s, fun _ => none⟩ "r" "g2" :=
  (c9_handle_unlinkability ⟨fun s => s, fun _ => none⟩ "r" "g1" "g2"
    (fun _ _ h => h) (by decide)).1

/-- C10: the public tags-poll entry point accepts only reader `P1`: any
other reader fails the `assert!` (a panic, not an error return), and a
`P1` call proceeds to the broker, forwarding the broker's reply. -/
theorem c10_reader_assertion (reply : Option String) :
    (∀ reader : Player, reader ≠ Player.P1 → nfc_tags reader reply = .panicked) ∧
    nfc_tags Player.P1 reply = .ok reply := by
  constructor
  · intro reader hne
    unfold nfc_tags
    rw [if_neg hne]
  · rfl

/-- Witness for C10 at reader `P2` and an empty reply. -/
theorem c10_reader_assertion_witness :
    nfc_tags Player.P2 none = .panicked ∧ nfc_tags Player.P1 none = .ok none :=
  ⟨(c10_reader_assertion none).1 Player.P2 (by decide), (c10_reader_assertion none).2⟩
